import Mathlib

/-!
Verification of the batch media-conversion CLI tools.

A shallow embedding of the batch file-conversion drivers of this repository
(`convert-image.ts`, `convert-video.ts`, the video→MP4 converter, and
`screenshot.ts`), together with theorems settling the specification claims
about output-path derivation, source deletion, batch outcome accounting,
argument parsing and the scroll-capture loop.

Paths and CLI tokens are modelled as `List Char`.  External collaborators
(the filesystem existence check, the ffmpeg/sharp encoders, glob scanning,
page navigation) are passed in as oracle functions, exactly at the points
where the scripts call out to them.
-/

namespace WebScraping

/-- A filesystem path / CLI argument, as a list of characters. -/
abbrev Path := List Char

/-- ASCII lower-casing of one character, as `String.prototype.toLowerCase`
acts on the extension strings appearing in these scripts (all ASCII). -/
def lowerChar (c : Char) : Char :=
  if 'A' ≤ c ∧ c ≤ 'Z' then Char.ofNat (c.toNat + 32) else c

/-- JS `s.toLowerCase()` on an ASCII string. -/
def lowerStr (s : Path) : Path := s.map lowerChar

/-- Remove trailing `'/'` separators, as the Node `path` functions do before
splitting off the basename.  (For a path consisting only of separators Node
returns the separator itself; such paths never carry an eligible extension,
so the difference is invisible to every claim below.) -/
def stripTrailingSlashes (p : Path) : Path :=
  (p.reverse.dropWhile (fun c => c = '/')).reverse

/-- Node `path.basename(p)`: the part after the last `'/'` once trailing
separators are removed. -/
def basename (p : Path) : Path :=
  ((stripTrailingSlashes p).reverse.takeWhile (fun c => c ≠ '/')).reverse

/-- Node `path.extname(p)`: the suffix of the basename from its last dot;
empty when the basename has no dot or the dot is its first character.
(Node additionally special-cases the name `".."` to the empty extension;
here it yields `"."` — both are ineligible extensions everywhere they are
consumed, so no claim can observe the difference.) -/
def extname (p : Path) : Path :=
  let b := basename p
  let t := b.reverse.takeWhile (fun c => c ≠ '.')
  if t.length + 1 < b.length ∨ (t.length + 1 = b.length ∧ b.head? ≠ some '.') then
    '.' :: t.reverse
  else []

/-- Node `path.basename(p, ext)`: the basename with the suffix `ext` removed
when the basename ends with `ext` and is not equal to it. -/
def basenameExt (p : Path) (ext : Path) : Path :=
  let b := basename p
  if ext.isSuffixOf b ∧ b ≠ ext then b.take (b.length - ext.length) else b

/-- Node `path.join(dir, name)` for the shapes these scripts use it with: a
directory joined with a single plain file name (no separators or dot-segments
in the name, so no normalisation takes place beyond inserting one `'/'`). -/
def joinPath (dir name : Path) : Path :=
  if dir = [] then name
  else if dir.getLast? = some '/' then dir ++ name
  else dir ++ '/' :: name

/-- JS `s.replace(pat, repl)` with a string pattern: replace the first
occurrence of `pat` in `s` (the whole string is returned unchanged when
`pat` does not occur). -/
def replaceFirst (pat repl : Path) : Path → Path
  | [] => if pat = [] then repl else []
  | c :: rest =>
    if pat.isPrefixOf (c :: rest) then repl ++ (c :: rest).drop pat.length
    else c :: replaceFirst pat repl rest

/-- JS truthiness of the `outputDir` variable: `undefined` and the empty
string are both falsy, so an empty `--output` value behaves as unset. -/
def optTruthy : Option Path → Bool
  | some s => !s.isEmpty
  | none => false

/-- Output path of the video→MP4 converter (`convertToMp4`, lines 39–44):
`outputDir ? join(outputDir, stem + ".mp4") : inputPath.replace(ext, ".mp4")`. -/
def deriveOutputMp4 (outputDir : Option Path) (inputPath : Path) : Path :=
  let ext := extname inputPath
  let outputFilename := basenameExt inputPath ext ++ ".mp4".data
  if optTruthy outputDir then joinPath (outputDir.getD []) outputFilename
  else replaceFirst ext ".mp4".data inputPath

/-- Output path of the image→WebP converter (`convertToWebP`,
`convert-image.ts` lines 30, 40–53).  The script lowercases the extension
once (`extname(inputPath).toLowerCase()`) and uses that lowercased string
both for the `-optimized` branch test and for the in-place replacement. -/
def deriveOutputWebP (outputDir : Option Path) (inputPath : Path) : Path :=
  let ext := lowerStr (extname inputPath)
  let stem := basenameExt inputPath ext
  if ext = ".webp".data ∧ ¬ optTruthy outputDir then
    replaceFirst (basename inputPath) (stem ++ "-optimized.webp".data) inputPath
  else
    let outputFilename := stem ++ ".webp".data
    if optTruthy outputDir then joinPath ((outputDir).getD []) outputFilename
    else replaceFirst ext ".webp".data inputPath

/-- Output path of the video→WebM converter (`convertToWebM`,
`convert-video.ts` lines 30, 40–53).  Here the extension keeps its original
case; only the `-optimized` branch test lowercases it. -/
def deriveOutputWebM (outputDir : Option Path) (inputPath : Path) : Path :=
  let ext := extname inputPath
  let stem := basenameExt inputPath ext
  if lowerStr ext = ".webm".data ∧ ¬ optTruthy outputDir then
    replaceFirst (basename inputPath) (stem ++ "-optimized.webm".data) inputPath
  else
    let outputFilename := stem ++ ".webm".data
    if optTruthy outputDir then joinPath ((outputDir).getD []) outputFilename
    else replaceFirst ext ".webm".data inputPath

/-- Source extensions accepted by the video→MP4 converter (line 31). -/
def videoExtsMp4 : List Path :=
  [".webm".data, ".avi".data, ".mov".data, ".mkv".data, ".flv".data]

/-- Source extensions accepted by the video→WebM converter
(`convert-video.ts` line 31). -/
def videoExtsWebM : List Path :=
  [".mp4".data, ".avi".data, ".mov".data, ".mkv".data, ".flv".data, ".webm".data]

/-- Source extensions accepted by the image converter
(`convert-image.ts` line 31). -/
def imageExts : List Path :=
  [".png".data, ".jpg".data, ".jpeg".data, ".gif".data, ".tiff".data,
   ".tif".data, ".bmp".data, ".webp".data]

/-- The outcome the driver records for one candidate path. -/
inductive Outcome where
  /-- The external converter reported success; the output path it wrote to. -/
  | converted (outputPath : Path)
  /-- `existsSync` was false: "File not found", `continue`. -/
  | skippedMissing
  /-- Extension not in the format's allowed set: "Skipping", `continue`. -/
  | skippedIneligible
  /-- The external converter threw; caught at the item boundary. -/
  | failed
deriving DecidableEq, Repr

/-- One job's outcome together with whether the script attempts
`unlinkSync(inputPath)` for it (a failing unlink is itself caught and does
not change the outcome). -/
structure JobResult where
  outcome : Outcome
  deletesSource : Bool
deriving DecidableEq, Repr

/-- One iteration of the `convertToMp4` loop (lines 24–86): existence
check, extension check, derive the output path, run ffmpeg (the `convOk`
oracle says whether the external encode succeeds), and on success delete
the source exactly when `keepOriginal` is false. -/
def processJobMp4 (fsExists convOk : Path → Bool) (outputDir : Option Path)
    (keepOriginal : Bool) (inputPath : Path) : JobResult :=
  if ¬ fsExists inputPath then ⟨.skippedMissing, false⟩
  else if lowerStr (extname inputPath) ∉ videoExtsMp4 then ⟨.skippedIneligible, false⟩
  else if convOk inputPath then
    ⟨.converted (deriveOutputMp4 outputDir inputPath), !keepOriginal⟩
  else ⟨.failed, false⟩

/-- One iteration of the `convertToWebM` loop (`convert-video.ts`
lines 24–100); deletion on success exactly when `keepOriginal` is false. -/
def processJobWebM (fsExists convOk : Path → Bool) (outputDir : Option Path)
    (keepOriginal : Bool) (inputPath : Path) : JobResult :=
  if ¬ fsExists inputPath then ⟨.skippedMissing, false⟩
  else if lowerStr (extname inputPath) ∉ videoExtsWebM then ⟨.skippedIneligible, false⟩
  else if convOk inputPath then
    ⟨.converted (deriveOutputWebM outputDir inputPath), !keepOriginal⟩
  else ⟨.failed, false⟩

/-- One iteration of the `convertToWebP` loop (`convert-image.ts`
lines 24–101).  Deletion (lines 89–97) is guarded by
`!keepOriginal && ext !== '.webp'`, with `ext` the lowercased extension. -/
def processJobWebP (fsExists convOk : Path → Bool) (outputDir : Option Path)
    (keepOriginal : Bool) (inputPath : Path) : JobResult :=
  if ¬ fsExists inputPath then ⟨.skippedMissing, false⟩
  else if lowerStr (extname inputPath) ∉ imageExts then ⟨.skippedIneligible, false⟩
  else if convOk inputPath then
    ⟨.converted (deriveOutputWebP outputDir inputPath),
      (!keepOriginal) && lowerStr (extname inputPath) ≠ ".webp".data⟩
  else ⟨.failed, false⟩

/-- The sequential `for (const inputPath of inputFiles)` loop of
`convertToMp4`: one job per candidate path, in order. -/
def runBatchMp4 (fsExists convOk : Path → Bool) (outputDir : Option Path)
    (keepOriginal : Bool) : List Path → List JobResult
  | [] => []
  | p :: rest =>
    processJobMp4 fsExists convOk outputDir keepOriginal p ::
      runBatchMp4 fsExists convOk outputDir keepOriginal rest

/-- The sequential loop of `convertToWebP`. -/
def runBatchWebP (fsExists convOk : Path → Bool) (outputDir : Option Path)
    (keepOriginal : Bool) : List Path → List JobResult
  | [] => []
  | p :: rest =>
    processJobWebP fsExists convOk outputDir keepOriginal p ::
      runBatchWebP fsExists convOk outputDir keepOriginal rest

/-- The sequential loop of `convertToWebM`. -/
def runBatchWebM (fsExists convOk : Path → Bool) (outputDir : Option Path)
    (keepOriginal : Bool) : List Path → List JobResult
  | [] => []
  | p :: rest =>
    processJobWebM fsExists convOk outputDir keepOriginal p ::
      runBatchWebM fsExists convOk outputDir keepOriginal rest

/-- JS `parseInt(s, 10)`: skip leading whitespace, an optional sign, then
the longest prefix of decimal digits; `none` models `NaN` (no digits). -/
def jsParseInt (s : Path) : Option Int :=
  let t := s.dropWhile (fun c => c = ' ' ∨ c = '\t' ∨ c = '\n' ∨ c = '\r')
  let signed : Int × Path :=
    match t with
    | '-' :: rest => (-1, rest)
    | '+' :: rest => (1, rest)
    | _ => (1, t)
  let digits := signed.2.takeWhile (fun c => '0' ≤ c ∧ c ≤ '9')
  if digits = [] then none
  else some (signed.1 *
    (digits.foldl (fun acc c => acc * 10 + (c.toNat - '0'.toNat)) 0 : Nat))

/-- Configuration accumulated by the video→MP4 converter's argument loop. -/
structure Mp4Config where
  inputFiles : List Path
  outputDir : Option Path
  keepOriginal : Bool
  quality : Int
deriving DecidableEq, Repr

/-- Initial values of the video→MP4 converter's `main` (lines 122–125):
`keepOriginal = false` (deletes by default), `quality = 22`. -/
def defaultMp4Config : Mp4Config := ⟨[], none, false, 22⟩

/-- The argument loop of the video→MP4 converter's `main` (lines 128–185),
one recursive step per loop iteration; `globScan pat` and `dirScan dir` are
the files produced by the two `Glob` scans, and `.error 1` is
`process.exit(1)`.  A token that matches no branch falls through the final
`else if (arg && !arg.startsWith('-'))` and is ignored. -/
def parseMp4 (globScan dirScan : Path → List Path) :
    List Path → Mp4Config → Except Nat Mp4Config
  | [], cfg => .ok cfg
  | arg :: rest, cfg =>
    if arg = "--output".data ∨ arg = "-o".data then
      match rest with
      | [] => .error 1
      | v :: rest' => parseMp4 globScan dirScan rest' { cfg with outputDir := some v }
    else if arg = "--pattern".data ∨ arg = "-p".data then
      match rest with
      | [] => .error 1
      | v :: rest' =>
        if v = [] then .error 1
        else parseMp4 globScan dirScan rest'
          { cfg with inputFiles := cfg.inputFiles ++ globScan v }
    else if arg = "--dir".data ∨ arg = "-d".data then
      match rest with
      | [] => .error 1
      | v :: rest' =>
        if v = [] then .error 1
        else parseMp4 globScan dirScan rest'
          { cfg with inputFiles := cfg.inputFiles ++ (dirScan v).map (joinPath v) }
    else if arg = "--keep".data ∨ arg = "-k".data then
      parseMp4 globScan dirScan rest { cfg with keepOriginal := true }
    else if arg = "--quality".data ∨ arg = "-q".data then
      match rest with
      | [] => .error 1
      | v :: rest' =>
        if v = [] then .error 1
        else
          match jsParseInt v with
          | none => .error 1
          | some q =>
            if q < 0 ∨ q > 51 then .error 1
            else parseMp4 globScan dirScan rest' { cfg with quality := q }
    else if arg ≠ [] ∧ arg.head? ≠ some '-' then
      parseMp4 globScan dirScan rest { cfg with inputFiles := cfg.inputFiles ++ [arg] }
    else parseMp4 globScan dirScan rest cfg

/-- Configuration accumulated by the video→WebM converter's argument loop. -/
structure WebMConfig where
  inputFiles : List Path
  outputDir : Option Path
  keepOriginal : Bool
  quality : Int
deriving DecidableEq, Repr

/-- Initial values of `convert-video.ts`'s `main` (lines 137–140):
`keepOriginal = true`, `quality = 30`. -/
def defaultWebMConfig : WebMConfig := ⟨[], none, true, 30⟩

/-- The argument loop of `convert-video.ts`'s `main` (lines 143–202): like
the MP4 converter plus a `--remove` (`-r`) branch, quality range 15–35. -/
def parseWebM (globScan dirScan : Path → List Path) :
    List Path → WebMConfig → Except Nat WebMConfig
  | [], cfg => .ok cfg
  | arg :: rest, cfg =>
    if arg = "--output".data ∨ arg = "-o".data then
      match rest with
      | [] => .error 1
      | v :: rest' => parseWebM globScan dirScan rest' { cfg with outputDir := some v }
    else if arg = "--pattern".data ∨ arg = "-p".data then
      match rest with
      | [] => .error 1
      | v :: rest' =>
        if v = [] then .error 1
        else parseWebM globScan dirScan rest'
          { cfg with inputFiles := cfg.inputFiles ++ globScan v }
    else if arg = "--dir".data ∨ arg = "-d".data then
      match rest with
      | [] => .error 1
      | v :: rest' =>
        if v = [] then .error 1
        else parseWebM globScan dirScan rest'
          { cfg with inputFiles := cfg.inputFiles ++ (dirScan v).map (joinPath v) }
    else if arg = "--keep".data ∨ arg = "-k".data then
      parseWebM globScan dirScan rest { cfg with keepOriginal := true }
    else if arg = "--remove".data ∨ arg = "-r".data then
      parseWebM globScan dirScan rest { cfg with keepOriginal := false }
    else if arg = "--quality".data ∨ arg = "-q".data then
      match rest with
      | [] => .error 1
      | v :: rest' =>
        if v = [] then .error 1
        else
          match jsParseInt v with
          | none => .error 1
          | some q =>
            if q < 15 ∨ q > 35 then .error 1
            else parseWebM globScan dirScan rest' { cfg with quality := q }
    else if arg ≠ [] ∧ arg.head? ≠ some '-' then
      parseWebM globScan dirScan rest { cfg with inputFiles := cfg.inputFiles ++ [arg] }
    else parseWebM globScan dirScan rest cfg

/-- Configuration accumulated by the image converter's argument loop. -/
structure ImageConfig where
  inputFiles : List Path
  outputDir : Option Path
  keepOriginal : Bool
  quality : Int
  maxWidth : Option Int
  maxHeight : Option Int
deriving DecidableEq, Repr

/-- Initial values of `convert-image.ts`'s `main` (lines 141–146):
`keepOriginal = true`, `quality = 80`, no dimension bounds. -/
def defaultImageConfig : ImageConfig := ⟨[], none, true, 80, none, none⟩

/-- The argument loop of `convert-image.ts`'s `main` (lines 149–238):
adds `--remove` (`-r`), `--width` (`-w`) and `--height` (long form only, `-h` is
help); quality range 0–100, dimensions must parse positive. -/
def parseImage (globScan dirScan : Path → List Path) :
    List Path → ImageConfig → Except Nat ImageConfig
  | [], cfg => .ok cfg
  | arg :: rest, cfg =>
    if arg = "--output".data ∨ arg = "-o".data then
      match rest with
      | [] => .error 1
      | v :: rest' => parseImage globScan dirScan rest' { cfg with outputDir := some v }
    else if arg = "--pattern".data ∨ arg = "-p".data then
      match rest with
      | [] => .error 1
      | v :: rest' =>
        if v = [] then .error 1
        else parseImage globScan dirScan rest'
          { cfg with inputFiles := cfg.inputFiles ++ globScan v }
    else if arg = "--dir".data ∨ arg = "-d".data then
      match rest with
      | [] => .error 1
      | v :: rest' =>
        if v = [] then .error 1
        else parseImage globScan dirScan rest'
          { cfg with inputFiles := cfg.inputFiles ++ (dirScan v).map (joinPath v) }
    else if arg = "--keep".data ∨ arg = "-k".data then
      parseImage globScan dirScan rest { cfg with keepOriginal := true }
    else if arg = "--remove".data ∨ arg = "-r".data then
      parseImage globScan dirScan rest { cfg with keepOriginal := false }
    else if arg = "--quality".data ∨ arg = "-q".data then
      match rest with
      | [] => .error 1
      | v :: rest' =>
        if v = [] then .error 1
        else
          match jsParseInt v with
          | none => .error 1
          | some q =>
            if q < 0 ∨ q > 100 then .error 1
            else parseImage globScan dirScan rest' { cfg with quality := q }
    else if arg = "--width".data ∨ arg = "-w".data then
      match rest with
      | [] => .error 1
      | v :: rest' =>
        if v = [] then .error 1
        else
          match jsParseInt v with
          | none => .error 1
          | some w =>
            if w ≤ 0 then .error 1
            else parseImage globScan dirScan rest' { cfg with maxWidth := some w }
    else if arg = "--height".data then
      match rest with
      | [] => .error 1
      | v :: rest' =>
        if v = [] then .error 1
        else
          match jsParseInt v with
          | none => .error 1
          | some hv =>
            if hv ≤ 0 then .error 1
            else parseImage globScan dirScan rest' { cfg with maxHeight := some hv }
    else if arg ≠ [] ∧ arg.head? ≠ some '-' then
      parseImage globScan dirScan rest { cfg with inputFiles := cfg.inputFiles ++ [arg] }
    else parseImage globScan dirScan rest cfg

/-- Result of one whole invocation: either the process exited before any
job ran (help text, missing flag value, validation failure, or an empty
resolved input set), or the batch ran to completion over each job and the
process then exited with the given code. -/
inductive RunResult where
  | exited (code : Nat)
  | ran (results : List JobResult) (code : Nat)
deriving DecidableEq, Repr

/-- The video→MP4 converter's `main` (lines 90–204): help check, argument
loop, the empty-input fatal error (lines 187–191), then the batch; a normal
completion exits with code 0. -/
def mainMp4 (globScan dirScan : Path → List Path) (fsExists convOk : Path → Bool)
    (args : List Path) : RunResult :=
  if args = [] ∨ "--help".data ∈ args ∨ "-h".data ∈ args then .exited 0
  else
    match parseMp4 globScan dirScan args defaultMp4Config with
    | .error c => .exited c
    | .ok cfg =>
      if cfg.inputFiles = [] then .exited 1
      else .ran (runBatchMp4 fsExists convOk cfg.outputDir cfg.keepOriginal cfg.inputFiles) 0

/-- `convert-video.ts`'s `main` (lines 104–221). -/
def mainWebM (globScan dirScan : Path → List Path) (fsExists convOk : Path → Bool)
    (args : List Path) : RunResult :=
  if args = [] ∨ "--help".data ∈ args ∨ "-h".data ∈ args then .exited 0
  else
    match parseWebM globScan dirScan args defaultWebMConfig with
    | .error c => .exited c
    | .ok cfg =>
      if cfg.inputFiles = [] then .exited 1
      else .ran (runBatchWebM fsExists convOk cfg.outputDir cfg.keepOriginal cfg.inputFiles) 0

/-- `convert-image.ts`'s `main` (lines 105–260). -/
def mainImage (globScan dirScan : Path → List Path) (fsExists convOk : Path → Bool)
    (args : List Path) : RunResult :=
  if args = [] ∨ "--help".data ∈ args ∨ "-h".data ∈ args then .exited 0
  else
    match parseImage globScan dirScan args defaultImageConfig with
    | .error c => .exited c
    | .ok cfg =>
      if cfg.inputFiles = [] then .exited 1
      else .ran (runBatchWebP fsExists convOk cfg.outputDir cfg.keepOriginal cfg.inputFiles) 0

/-- Result recorded for one URL by the screenshot tool: either the whole
navigate/screenshot/record sequence succeeded, or some step threw and the
`catch` at the loop body's end (screenshot.ts lines 165–167) absorbed it. -/
inductive UrlResult where
  | ok
  | errorCaught
deriving DecidableEq, Repr

/-- One iteration of the per-URL loop of `takeScreenshots` (lines 130–168);
the `urlOk` oracle says whether the external navigation, screenshot and
optional recording steps all succeed for that URL. -/
def processUrl (urlOk : Path → Bool) (url : Path) : UrlResult :=
  if urlOk url then .ok else .errorCaught

/-- The per-URL loop of `takeScreenshots`: strictly sequential, one result
per URL, an error for one URL never stops the loop. -/
def processUrls (urlOk : Path → Bool) : List Path → List UrlResult
  | [] => []
  | u :: rest => processUrl urlOk u :: processUrls urlOk rest

/-- Video recording duration constant (screenshot.ts line 21). -/
def VIDEO_DURATION_MS : Nat := 15000

/-- Scroll interval constant (screenshot.ts line 23). -/
def SCROLL_INTERVAL_MS : Nat := 12

/-- Scroll amount per interval constant (screenshot.ts line 25). -/
def SCROLL_AMOUNT : Nat := 1

/-- The page scroll state read and written by `scrollPage`'s injected
browser code (lines 38–48). -/
structure PageState where
  scrollTop : Nat
  scrollHeight : Nat
  clientHeight : Nat
deriving DecidableEq, Repr

/-- One iteration body of `scrollPage`: advance by `SCROLL_AMOUNT` exactly
when the position is short of the scrollable extent
(`scrollTop + clientHeight < scrollHeight`), otherwise leave the page as is. -/
def scrollStep (st : PageState) : PageState :=
  if st.scrollTop + st.clientHeight < st.scrollHeight then
    { st with scrollTop := st.scrollTop + SCROLL_AMOUNT }
  else st

/-- The `while (Date.now() - startTime < durationMs)` loop of `scrollPage`
(lines 33–54), with the idealised wall clock in which each iteration costs
exactly the unconditional `SCROLL_INTERVAL_MS` sleep.  Returns the final
page state and the number of iterations executed. -/
def scrollLoop (duration : Nat) (st : PageState) (elapsed : Nat) : PageState × Nat :=
  if h : elapsed < duration then
    let r := scrollLoop duration (scrollStep st) (elapsed + SCROLL_INTERVAL_MS)
    (r.1, r.2 + 1)
  else (st, 0)
termination_by duration - elapsed
decreasing_by simp only [SCROLL_INTERVAL_MS]; omega

/-- The filename built for a recording by `takeScreenshots` (lines 161–162):
hostname with every dot replaced by an underscore, an underscore, the
timestamp's digits, and the literal suffix ".mp4". -/
def videoFilename (hostname timestamp : Path) : Path :=
  hostname.map (fun c => if c = '.' then '_' else c) ++ '_' :: timestamp ++ ".mp4".data

/-- The validation at the top of `recordVideo` (lines 56–60): throw unless
the filepath ends with ".mp4". -/
def recordVideoCheck (filepath : Path) : Except Unit Unit :=
  if ".mp4".data.isSuffixOf filepath then .ok () else .error ()

end WebScraping

namespace WebScraping

example : extname "clip.webm".data = ".webm".data := by decide
example : extname "PHOTO.PNG".data = ".PNG".data := by decide
example : extname ".webm".data = [] := by decide
example : basename "a/b/clip.webm".data = "clip.webm".data := by decide
example : basenameExt "clip.webm".data ".webm".data = "clip".data := by decide
example : deriveOutputMp4 none "clip.webm".data = "clip.mp4".data := by decide
example : deriveOutputMp4 (some "out".data) "clip.webm".data = "out/clip.mp4".data := by decide
example : deriveOutputMp4 none "a.webm.webm".data = "a.mp4.webm".data := by decide
example : deriveOutputWebP none "PHOTO.PNG".data = "PHOTO.PNG".data := by decide
example : deriveOutputWebP none "photo.png".data = "photo.webp".data := by decide
example : deriveOutputWebP none "a.webp".data = "a-optimized.webp".data := by decide
example : deriveOutputWebM none "already.webm".data = "already-optimized.webm".data := by decide

/-! Helper lemmas about the path primitives. -/

lemma length_replaceFirst_of_infix (pat repl : Path) (hne : pat ≠ []) :
    ∀ s : Path, pat <:+: s →
      (replaceFirst pat repl s).length + pat.length = s.length + repl.length := by
  intro s
  induction s with
  | nil =>
    intro h
    exact absurd (List.eq_nil_of_infix_nil h) hne
  | cons c rest ih =>
    intro hinf
    by_cases hp : pat.isPrefixOf (c :: rest)
    · rw [replaceFirst, if_pos hp]
      have hple : pat.length ≤ (c :: rest).length :=
        (List.isPrefixOf_iff_prefix.mp hp).length_le
      simp only [List.length_append, List.length_drop, List.length_cons]
      simp only [List.length_cons] at hple
      omega
    · rw [replaceFirst, if_neg hp]
      obtain ⟨l, r, hlr⟩ := hinf
      cases l with
      | nil =>
        exact absurd (List.isPrefixOf_iff_prefix.mpr ⟨r, by simpa using hlr⟩) hp
      | cons x l' =>
        have hx : l' ++ pat ++ r = rest := by
          have := hlr
          simp only [List.cons_append, List.cons.injEq] at this
          exact this.2
        have := ih ⟨l', r, hx⟩
        simp only [List.length_cons]
        omega

lemma replaceFirst_ne_of_longer (pat repl : Path) (hne : pat ≠ [])
    (hlen : pat.length < repl.length) (s : Path) (hinf : pat <:+: s) :
    replaceFirst pat repl s ≠ s := by
  intro he
  have h := length_replaceFirst_of_infix pat repl hne s hinf
  rw [he] at h
  omega

lemma replaceFirst_append_of_first (pat repl : Path) :
    ∀ a : Path, (∀ j, j < a.length → ¬ pat.isPrefixOf ((a ++ pat).drop j)) →
      replaceFirst pat repl (a ++ pat) = a ++ repl := by
  intro a
  induction a with
  | nil =>
    intro _
    cases pat with
    | nil => simp [replaceFirst]
    | cons c cs =>
      simp only [List.nil_append]
      rw [replaceFirst, if_pos (List.isPrefixOf_iff_prefix.mpr (List.prefix_refl _))]
      simp
  | cons x a' ih =>
    intro h
    have h0 : ¬ pat.isPrefixOf (x :: (a' ++ pat)) := by
      have := h 0 (by simp)
      simpa using this
    simp only [List.cons_append]
    rw [replaceFirst, if_neg h0]
    have ih' := ih (fun j hj => by
      have := h (j + 1) (by simp; omega)
      simpa using this)
    rw [ih']

lemma stripTrailingSlashes_prefix (p : Path) : stripTrailingSlashes p <+: p := by
  have h : p.reverse.dropWhile (fun c => c = '/') <:+ p.reverse :=
    List.dropWhile_suffix _
  have h2 := List.reverse_prefix.mpr h
  simpa [stripTrailingSlashes] using h2

lemma basename_suffix_strip (p : Path) : basename p <:+ stripTrailingSlashes p := by
  have h : (stripTrailingSlashes p).reverse.takeWhile (fun c => c ≠ '/') <+:
      (stripTrailingSlashes p).reverse := List.takeWhile_prefix _
  have h2 := List.reverse_suffix.mpr h
  simpa [basename] using h2

lemma basename_occurs (p : Path) : basename p <:+: p := by
  obtain ⟨u, hu⟩ := basename_suffix_strip p
  obtain ⟨v, hv⟩ := stripTrailingSlashes_prefix p
  exact ⟨u, v, by rw [hu]; exact hv⟩

lemma extname_eq_nil_of_basename_nil (p : Path) (h : basename p = []) :
    extname p = [] := by
  simp [extname, h]

lemma basename_ne_nil_of_extname_ne_nil (p : Path) (h : extname p ≠ []) :
    basename p ≠ [] :=
  fun hb => h (extname_eq_nil_of_basename_nil p hb)

lemma basenameExt_length_ge (p e : Path) :
    (basename p).length - e.length ≤ (basenameExt p e).length := by
  simp only [basenameExt]
  split
  · simp only [List.length_take]
    omega
  · omega

lemma length_lowerStr (s : Path) : (lowerStr s).length = s.length := by
  simp [lowerStr]

lemma lowerStr_ne_nil_iff (s : Path) : lowerStr s = [] ↔ s = [] := by
  constructor
  · intro h
    have := congrArg List.length h
    simpa [length_lowerStr] using List.length_eq_zero.mp (by simpa [length_lowerStr] using this)
  · intro h; simp [h, lowerStr]

lemma runBatchMp4_eq_map (fs conv : Path → Bool) (od : Option Path) (keep : Bool) :
    ∀ l : List Path, runBatchMp4 fs conv od keep l = l.map (processJobMp4 fs conv od keep) := by
  intro l
  induction l with
  | nil => rfl
  | cons p rest ih => simp [runBatchMp4, ih]

lemma runBatchWebP_eq_map (fs conv : Path → Bool) (od : Option Path) (keep : Bool) :
    ∀ l : List Path, runBatchWebP fs conv od keep l = l.map (processJobWebP fs conv od keep) := by
  intro l
  induction l with
  | nil => rfl
  | cons p rest ih => simp [runBatchWebP, ih]

lemma runBatchWebM_eq_map (fs conv : Path → Bool) (od : Option Path) (keep : Bool) :
    ∀ l : List Path, runBatchWebM fs conv od keep l = l.map (processJobWebM fs conv od keep) := by
  intro l
  induction l with
  | nil => rfl
  | cons p rest ih => simp [runBatchWebM, ih]

lemma processUrls_eq_map (urlOk : Path → Bool) :
    ∀ urls : List Path, processUrls urlOk urls = urls.map (processUrl urlOk) := by
  intro urls
  induction urls with
  | nil => rfl
  | cons u rest ih => simp [processUrls, ih]

lemma parseMp4_quality_range_aux (gs ds : Path → List Path) :
    ∀ (n : Nat) (args : List Path), args.length ≤ n → ∀ (cfg cfg' : Mp4Config),
      parseMp4 gs ds args cfg = .ok cfg' →
      0 ≤ cfg.quality → cfg.quality ≤ 51 →
        0 ≤ cfg'.quality ∧ cfg'.quality ≤ 51 := by
  intro n
  induction n with
  | zero =>
    intro args hlen cfg cfg' hp h1 h2
    have hnil : args = [] := List.length_eq_zero.mp (Nat.le_zero.mp hlen)
    subst hnil
    rw [parseMp4] at hp
    injection hp with h
    subst h
    exact ⟨h1, h2⟩
  | succ n ih =>
    intro args hlen cfg cfg' hp h1 h2
    cases args with
    | nil =>
      rw [parseMp4] at hp
      injection hp with h
      subst h
      exact ⟨h1, h2⟩
    | cons arg rest =>
      simp only [List.length_cons] at hlen
      cases rest with
      | nil =>
        rw [parseMp4] at hp
        split_ifs at hp
        all_goals
          first
          | exact Except.noConfusion hp
          | exact ih [] (by simp) _ cfg' hp h1 h2
      | cons v rest' =>
        simp only [List.length_cons] at hlen
        rw [parseMp4] at hp
        by_cases c1 : arg = "--output".data ∨ arg = "-o".data
        · rw [if_pos c1] at hp
          exact ih rest' (by omega) _ cfg' hp h1 h2
        · rw [if_neg c1] at hp
          by_cases c2 : arg = "--pattern".data ∨ arg = "-p".data
          · rw [if_pos c2] at hp
            by_cases cv : v = []
            · rw [if_pos cv] at hp
              exact Except.noConfusion hp
            · rw [if_neg cv] at hp
              exact ih rest' (by omega) _ cfg' hp h1 h2
          · rw [if_neg c2] at hp
            by_cases c3 : arg = "--dir".data ∨ arg = "-d".data
            · rw [if_pos c3] at hp
              by_cases cv : v = []
              · rw [if_pos cv] at hp
                exact Except.noConfusion hp
              · rw [if_neg cv] at hp
                exact ih rest' (by omega) _ cfg' hp h1 h2
            · rw [if_neg c3] at hp
              by_cases c4 : arg = "--keep".data ∨ arg = "-k".data
              · rw [if_pos c4] at hp
                exact ih (v :: rest') (by simp; omega) _ cfg' hp h1 h2
              · rw [if_neg c4] at hp
                by_cases c5 : arg = "--quality".data ∨ arg = "-q".data
                · rw [if_pos c5] at hp
                  by_cases cv : v = []
                  · rw [if_pos cv] at hp
                    exact Except.noConfusion hp
                  · rw [if_neg cv] at hp
                    cases hjs : jsParseInt v with
                    | none =>
                      rw [hjs] at hp
                      exact Except.noConfusion hp
                    | some q =>
                      rw [hjs] at hp
                      dsimp only at hp
                      by_cases cr : q < 0 ∨ q > 51
                      · rw [if_pos cr] at hp
                        exact Except.noConfusion hp
                      · rw [if_neg cr] at hp
                        push_neg at cr
                        exact ih rest' (by omega) _ cfg' hp cr.1 cr.2
                · rw [if_neg c5] at hp
                  by_cases c6 : arg ≠ [] ∧ arg.head? ≠ some '-'
                  · rw [if_pos c6] at hp
                    exact ih (v :: rest') (by simp; omega) _ cfg' hp h1 h2
                  · rw [if_neg c6] at hp
                    exact ih (v :: rest') (by simp; omega) _ cfg' hp h1 h2

lemma parseWebM_quality_range_aux (gs ds : Path → List Path) :
    ∀ (n : Nat) (args : List Path), args.length ≤ n → ∀ (cfg cfg' : WebMConfig),
      parseWebM gs ds args cfg = .ok cfg' →
      15 ≤ cfg.quality → cfg.quality ≤ 35 →
        15 ≤ cfg'.quality ∧ cfg'.quality ≤ 35 := by
  intro n
  induction n with
  | zero =>
    intro args hlen cfg cfg' hp h1 h2
    have hnil : args = [] := List.length_eq_zero.mp (Nat.le_zero.mp hlen)
    subst hnil
    rw [parseWebM] at hp
    injection hp with h
    subst h
    exact ⟨h1, h2⟩
  | succ n ih =>
    intro args hlen cfg cfg' hp h1 h2
    cases args with
    | nil =>
      rw [parseWebM] at hp
      injection hp with h
      subst h
      exact ⟨h1, h2⟩
    | cons arg rest =>
      simp only [List.length_cons] at hlen
      cases rest with
      | nil =>
        rw [parseWebM] at hp
        split_ifs at hp
        all_goals
          first
          | exact Except.noConfusion hp
          | exact ih [] (by simp) _ cfg' hp h1 h2
      | cons v rest' =>
        simp only [List.length_cons] at hlen
        rw [parseWebM] at hp
        by_cases c1 : arg = "--output".data ∨ arg = "-o".data
        · rw [if_pos c1] at hp
          exact ih rest' (by omega) _ cfg' hp h1 h2
        · rw [if_neg c1] at hp
          by_cases c2 : arg = "--pattern".data ∨ arg = "-p".data
          · rw [if_pos c2] at hp
            by_cases cv : v = []
            · rw [if_pos cv] at hp
              exact Except.noConfusion hp
            · rw [if_neg cv] at hp
              exact ih rest' (by omega) _ cfg' hp h1 h2
          · rw [if_neg c2] at hp
            by_cases c3 : arg = "--dir".data ∨ arg = "-d".data
            · rw [if_pos c3] at hp
              by_cases cv : v = []
              · rw [if_pos cv] at hp
                exact Except.noConfusion hp
              · rw [if_neg cv] at hp
                exact ih rest' (by omega) _ cfg' hp h1 h2
            · rw [if_neg c3] at hp
              by_cases c4 : arg = "--keep".data ∨ arg = "-k".data
              · rw [if_pos c4] at hp
                exact ih (v :: rest') (by simp; omega) _ cfg' hp h1 h2
              · rw [if_neg c4] at hp
                by_cases c5 : arg = "--remove".data ∨ arg = "-r".data
                · rw [if_pos c5] at hp
                  exact ih (v :: rest') (by simp; omega) _ cfg' hp h1 h2
                · rw [if_neg c5] at hp
                  by_cases c6 : arg = "--quality".data ∨ arg = "-q".data
                  · rw [if_pos c6] at hp
                    by_cases cv : v = []
                    · rw [if_pos cv] at hp
                      exact Except.noConfusion hp
                    · rw [if_neg cv] at hp
                      cases hjs : jsParseInt v with
                      | none =>
                        rw [hjs] at hp
                        exact Except.noConfusion hp
                      | some q =>
                        rw [hjs] at hp
                        dsimp only at hp
                        by_cases cr : q < 15 ∨ q > 35
                        · rw [if_pos cr] at hp
                          exact Except.noConfusion hp
                        · rw [if_neg cr] at hp
                          push_neg at cr
                          exact ih rest' (by omega) _ cfg' hp cr.1 cr.2
                  · rw [if_neg c6] at hp
                    by_cases c7 : arg ≠ [] ∧ arg.head? ≠ some '-'
                    · rw [if_pos c7] at hp
                      exact ih (v :: rest') (by simp; omega) _ cfg' hp h1 h2
                    · rw [if_neg c7] at hp
                      exact ih (v :: rest') (by simp; omega) _ cfg' hp h1 h2

lemma parseImage_quality_range_aux (gs ds : Path → List Path) :
    ∀ (n : Nat) (args : List Path), args.length ≤ n → ∀ (cfg cfg' : ImageConfig),
      parseImage gs ds args cfg = .ok cfg' →
      0 ≤ cfg.quality → cfg.quality ≤ 100 →
        0 ≤ cfg'.quality ∧ cfg'.quality ≤ 100 := by
  intro n
  induction n with
  | zero =>
    intro args hlen cfg cfg' hp h1 h2
    have hnil : args = [] := List.length_eq_zero.mp (Nat.le_zero.mp hlen)
    subst hnil
    rw [parseImage] at hp
    injection hp with h
    subst h
    exact ⟨h1, h2⟩
  | succ n ih =>
    intro args hlen cfg cfg' hp h1 h2
    cases args with
    | nil =>
      rw [parseImage] at hp
      injection hp with h
      subst h
      exact ⟨h1, h2⟩
    | cons arg rest =>
      simp only [List.length_cons] at hlen
      cases rest with
      | nil =>
        rw [parseImage] at hp
        split_ifs at hp
        all_goals
          first
          | exact Except.noConfusion hp
          | exact ih [] (by simp) _ cfg' hp h1 h2
      | cons v rest' =>
        simp only [List.length_cons] at hlen
        rw [parseImage] at hp
        by_cases c1 : arg = "--output".data ∨ arg = "-o".data
        · rw [if_pos c1] at hp
          exact ih rest' (by omega) _ cfg' hp h1 h2
        · rw [if_neg c1] at hp
          by_cases c2 : arg = "--pattern".data ∨ arg = "-p".data
          · rw [if_pos c2] at hp
            by_cases cv : v = []
            · rw [if_pos cv] at hp
              exact Except.noConfusion hp
            · rw [if_neg cv] at hp
              exact ih rest' (by omega) _ cfg' hp h1 h2
          · rw [if_neg c2] at hp
            by_cases c3 : arg = "--dir".data ∨ arg = "-d".data
            · rw [if_pos c3] at hp
              by_cases cv : v = []
              · rw [if_pos cv] at hp
                exact Except.noConfusion hp
              · rw [if_neg cv] at hp
                exact ih rest' (by omega) _ cfg' hp h1 h2
            · rw [if_neg c3] at hp
              by_cases c4 : arg = "--keep".data ∨ arg = "-k".data
              · rw [if_pos c4] at hp
                exact ih (v :: rest') (by simp; omega) _ cfg' hp h1 h2
              · rw [if_neg c4] at hp
                by_cases c5 : arg = "--remove".data ∨ arg = "-r".data
                · rw [if_pos c5] at hp
                  exact ih (v :: rest') (by simp; omega) _ cfg' hp h1 h2
                · rw [if_neg c5] at hp
                  by_cases c6 : arg = "--quality".data ∨ arg = "-q".data
                  · rw [if_pos c6] at hp
                    by_cases cv : v = []
                    · rw [if_pos cv] at hp
                      exact Except.noConfusion hp
                    · rw [if_neg cv] at hp
                      cases hjs : jsParseInt v with
                      | none =>
                        rw [hjs] at hp
                        exact Except.noConfusion hp
                      | some q =>
                        rw [hjs] at hp
                        dsimp only at hp
                        by_cases cr : q < 0 ∨ q > 100
                        · rw [if_pos cr] at hp
                          exact Except.noConfusion hp
                        · rw [if_neg cr] at hp
                          push_neg at cr
                          exact ih rest' (by omega) _ cfg' hp cr.1 cr.2
                  · rw [if_neg c6] at hp
                    by_cases c7 : arg = "--width".data ∨ arg = "-w".data
                    · rw [if_pos c7] at hp
                      by_cases cv : v = []
                      · rw [if_pos cv] at hp
                        exact Except.noConfusion hp
                      · rw [if_neg cv] at hp
                        cases hjs : jsParseInt v with
                        | none =>
                          rw [hjs] at hp
                          exact Except.noConfusion hp
                        | some w =>
                          rw [hjs] at hp
                          dsimp only at hp
                          by_cases cw : w ≤ 0
                          · rw [if_pos cw] at hp
                            exact Except.noConfusion hp
                          · rw [if_neg cw] at hp
                            exact ih rest' (by omega) _ cfg' hp h1 h2
                    · rw [if_neg c7] at hp
                      by_cases c8 : arg = "--height".data
                      · rw [if_pos c8] at hp
                        by_cases cv : v = []
                        · rw [if_pos cv] at hp
                          exact Except.noConfusion hp
                        · rw [if_neg cv] at hp
                          cases hjs : jsParseInt v with
                          | none =>
                            rw [hjs] at hp
                            exact Except.noConfusion hp
                          | some hv =>
                            rw [hjs] at hp
                            dsimp only at hp
                            by_cases ch : hv ≤ 0
                            · rw [if_pos ch] at hp
                              exact Except.noConfusion hp
                            · rw [if_neg ch] at hp
                              exact ih rest' (by omega) _ cfg' hp h1 h2
                      · rw [if_neg c8] at hp
                        by_cases c9 : arg ≠ [] ∧ arg.head? ≠ some '-'
                        · rw [if_pos c9] at hp
                          exact ih (v :: rest') (by simp; omega) _ cfg' hp h1 h2
                        · rw [if_neg c9] at hp
                          exact ih (v :: rest') (by simp; omega) _ cfg' hp h1 h2

/-! Claim C3. -/

/-- C3: for every source path whose (case-insensitive) extension equals the
target format's extension, when no output directory is in effect the derived
output path differs from the source path (the `-optimized` suffix rule), so
a same-format re-encode never overwrites its source — for the video→WebM
converter and for the image→WebP converter. -/
theorem c3_same_format_never_overwrites :
    ∀ (p : Path) (od : Option Path), optTruthy od = false →
      (lowerStr (extname p) = ".webm".data → deriveOutputWebM od p ≠ p) ∧
      (lowerStr (extname p) = ".webp".data → deriveOutputWebP od p ≠ p) := by
  intro p od hod
  constructor
  · intro hlow
    have hext_ne : extname p ≠ [] := by
      intro h; rw [h] at hlow; simp [lowerStr] at hlow
    have hb_ne : basename p ≠ [] := basename_ne_nil_of_extname_ne_nil p hext_ne
    have he_len : (extname p).length = 5 := by
      have h := congrArg List.length hlow
      simpa [length_lowerStr] using h
    simp only [deriveOutputWebM]
    split
    · apply replaceFirst_ne_of_longer _ _ hb_ne _ _ (basename_occurs p)
      have hst := basenameExt_length_ge p (extname p)
      have h15 : ("-optimized.webm".data).length = 15 := by decide
      simp only [List.length_append, h15]
      omega
    · next hcond => exact absurd ⟨hlow, by simp [hod]⟩ hcond
  · intro hlow
    have hext_ne : extname p ≠ [] := by
      intro h; rw [h] at hlow; simp [lowerStr] at hlow
    have hb_ne : basename p ≠ [] := basename_ne_nil_of_extname_ne_nil p hext_ne
    have he_len : (lowerStr (extname p)).length = 5 := by
      have h := congrArg List.length hlow
      simpa using h
    simp only [deriveOutputWebP]
    split
    · apply replaceFirst_ne_of_longer _ _ hb_ne _ _ (basename_occurs p)
      have hst := basenameExt_length_ge p (lowerStr (extname p))
      have h15 : ("-optimized.webp".data).length = 15 := by decide
      simp only [List.length_append, h15]
      omega
    · next hcond => exact absurd ⟨hlow, by simp [hod]⟩ hcond

/-- Witness for C3 at concrete inputs: a same-extension WebM re-encode and a
same-extension WebP re-encode, both without an output directory, derive
output paths that differ from their sources. -/
theorem c3_same_format_never_overwrites_witness :
    deriveOutputWebM none "already.webm".data ≠ "already.webm".data ∧
    deriveOutputWebP none "a.webp".data ≠ "a.webp".data :=
  ⟨(c3_same_format_never_overwrites "already.webm".data none (by decide)).1 (by decide),
   (c3_same_format_never_overwrites "a.webp".data none (by decide)).2 (by decide)⟩

/-! Claim C4. -/

/-- C4: for every batch, the driver produces exactly one outcome per
candidate path — the run is the pointwise map of the single-job function
over the candidate list, so its length equals the number of candidates,
none is dropped, and a duplicated path yields two outcomes. -/
theorem c4_one_outcome_per_candidate :
    ∀ (fs conv : Path → Bool) (od : Option Path) (keep : Bool) (inputs : List Path),
      runBatchMp4 fs conv od keep inputs = inputs.map (processJobMp4 fs conv od keep) ∧
      (runBatchMp4 fs conv od keep inputs).length = inputs.length ∧
      runBatchWebP fs conv od keep inputs = inputs.map (processJobWebP fs conv od keep) ∧
      (runBatchWebP fs conv od keep inputs).length = inputs.length := by
  intro fs conv od keep inputs
  refine ⟨runBatchMp4_eq_map fs conv od keep inputs, ?_,
    runBatchWebP_eq_map fs conv od keep inputs, ?_⟩
  · rw [runBatchMp4_eq_map fs conv od keep inputs]; simp
  · rw [runBatchWebP_eq_map fs conv od keep inputs]; simp

/-! Claim C1. -/

/-- C1 as stated is false: in the image converter a successfully converted
`.webp` source with `keepOriginal = false` yields outcome `Converted` yet no
deletion of the source is attempted (`convert-image.ts` line 90 guards the
unlink with `ext !== '.webp'`). -/
theorem c1_counterexample :
    (processJobWebP (fun _ => true) (fun _ => true) none false "a.webp".data).outcome =
      .converted "a-optimized.webp".data ∧
    (processJobWebP (fun _ => true) (fun _ => true) none false "a.webp".data).deletesSource =
      false := by
  decide

/-- C1 amended: for the two video converters a job attempts deletion of its
source if and only if its outcome is `Converted` and `keepOriginal` is
false; the image converter additionally requires the source's lowercased
extension to differ from `.webp` — a converted `.webp` source is never
deleted even with `keepOriginal = false`.  Skipped and failed jobs never
delete, in all three converters. -/
theorem c1_amended_deletion_iff :
    ∀ (fs conv : Path → Bool) (od : Option Path) (keep : Bool) (p : Path),
      ((processJobMp4 fs conv od keep p).deletesSource = true ↔
        (∃ o, (processJobMp4 fs conv od keep p).outcome = .converted o) ∧ keep = false) ∧
      ((processJobWebM fs conv od keep p).deletesSource = true ↔
        (∃ o, (processJobWebM fs conv od keep p).outcome = .converted o) ∧ keep = false) ∧
      ((processJobWebP fs conv od keep p).deletesSource = true ↔
        (∃ o, (processJobWebP fs conv od keep p).outcome = .converted o) ∧ keep = false ∧
          lowerStr (extname p) ≠ ".webp".data) := by
  intro fs conv od keep p
  refine ⟨?_, ?_, ?_⟩
  · unfold processJobMp4
    split_ifs <;> simp [Bool.not_eq_true']
  · unfold processJobWebM
    split_ifs <;> simp [Bool.not_eq_true']
  · unfold processJobWebP
    split_ifs <;> simp [Bool.not_eq_true', and_assoc]

/-! Claim C2. -/

/-- C2 as stated is false.  `PHOTO.PNG` is an eligible image input whose
extension differs from the target, yet with no output directory the derived
output path is the source path itself (the script replaces the *lowercased*
extension string, which does not occur in the path), and with an output
directory the derived name keeps the full basename (`out/PHOTO.PNG.webp`
instead of `out/PHOTO.webp`).  For the MP4 converter, an extension string
that also occurs earlier in the path is replaced at its first occurrence
(`a.webm.webm` derives `a.mp4.webm`, not `a.webm.mp4`). -/
theorem c2_counterexample :
    lowerStr (extname "PHOTO.PNG".data) ∈ imageExts ∧
    deriveOutputWebP none "PHOTO.PNG".data = "PHOTO.PNG".data ∧
    deriveOutputWebP (some "out".data) "PHOTO.PNG".data = "out/PHOTO.PNG.webp".data ∧
    lowerStr (extname "a.webm.webm".data) ∈ videoExtsMp4 ∧
    deriveOutputMp4 none "a.webm.webm".data = "a.mp4.webm".data := by
  decide

/-- C2 amended: with an output directory configured the video→MP4 converter
derives `outputDir/<stem>.mp4` where the stem is the basename with its
extension stripped; without one it replaces the *first occurrence* of the
extension substring, which is in-place extension replacement exactly when
the extension does not occur earlier in the path.  The image converter
behaves the same way only for sources whose extension is already lowercase,
because it lowercases the extension before both stripping and replacing. -/
theorem c2_amended_output_path :
    (∀ (od p : Path), od ≠ [] →
      deriveOutputMp4 (some od) p =
        joinPath od (basenameExt p (extname p) ++ ".mp4".data)) ∧
    (∀ (p a : Path), lowerStr (extname p) ∈ videoExtsMp4 →
      p = a ++ extname p →
      (∀ j, j < a.length → ¬ (extname p).isPrefixOf (p.drop j)) →
      deriveOutputMp4 none p = a ++ ".mp4".data) ∧
    (∀ (od p : Path), od ≠ [] → lowerStr (extname p) = extname p →
      deriveOutputWebP (some od) p =
        joinPath od (basenameExt p (extname p) ++ ".webp".data)) ∧
    (∀ (p a : Path), lowerStr (extname p) ∈ imageExts →
      lowerStr (extname p) = extname p → extname p ≠ ".webp".data →
      p = a ++ extname p →
      (∀ j, j < a.length → ¬ (extname p).isPrefixOf (p.drop j)) →
      deriveOutputWebP none p = a ++ ".webp".data) := by
  refine ⟨?_, ?_, ?_, ?_⟩
  · intro od p hod
    have ht : optTruthy (some od) = true := by simp [optTruthy, hod]
    simp only [deriveOutputMp4, ht]
    simp
  · intro p a _ hpa hocc
    simp only [deriveOutputMp4, optTruthy]
    simp only [Bool.false_eq_true, if_false]
    generalize he : extname p = e at hpa hocc ⊢
    rw [hpa]
    rw [hpa] at hocc
    exact replaceFirst_append_of_first e ".mp4".data a hocc
  · intro od p hod hlow
    have ht : optTruthy (some od) = true := by simp [optTruthy, hod]
    simp only [deriveOutputWebP, hlow, ht]
    simp
  · intro p a _ hlow hne hpa hocc
    simp only [deriveOutputWebP, hlow, optTruthy]
    rw [if_neg (by simp [hne])]
    simp only [Bool.false_eq_true, if_false]
    generalize he : extname p = e at hpa hocc ⊢
    rw [hpa]
    rw [hpa] at hocc
    exact replaceFirst_append_of_first e ".webp".data a hocc

/-- Witness for C2 amended, at concrete inputs of each of its four cases. -/
theorem c2_amended_output_path_witness :
    deriveOutputMp4 (some "out".data) "clip.webm".data =
      joinPath "out".data (basenameExt "clip.webm".data (extname "clip.webm".data) ++
        ".mp4".data) ∧
    deriveOutputMp4 none "clip.webm".data = "clip".data ++ ".mp4".data ∧
    deriveOutputWebP (some "out".data) "photo.png".data =
      joinPath "out".data (basenameExt "photo.png".data (extname "photo.png".data) ++
        ".webp".data) ∧
    deriveOutputWebP none "photo.png".data = "photo".data ++ ".webp".data :=
  ⟨c2_amended_output_path.1 "out".data "clip.webm".data (by decide),
   c2_amended_output_path.2.1 "clip.webm".data "clip".data (by decide) (by decide)
     (by decide),
   c2_amended_output_path.2.2.1 "out".data "photo.png".data (by decide) (by decide),
   c2_amended_output_path.2.2.2 "photo.png".data "photo".data (by decide) (by decide)
     (by decide) (by decide) (by decide)⟩

/-! Claim C5. -/

/-- C5: every per-item error is caught at the item boundary and does not
affect other items.  Whatever the external oracles do (any pattern of
missing files, ineligible extensions and conversion failures), an
invocation that reaches the batch produces one outcome per resolved input
— the pointwise map over the whole input list — and exits 0; likewise the
screenshot tool's per-URL loop yields one result per URL with failures
caught in place. -/
theorem c5_item_errors_never_abort_batch :
    ∀ (gs ds : Path → List Path) (fs conv : Path → Bool) (args : List Path)
      (cfg : Mp4Config),
      args ≠ [] → "--help".data ∉ args → "-h".data ∉ args →
      parseMp4 gs ds args defaultMp4Config = .ok cfg → cfg.inputFiles ≠ [] →
      mainMp4 gs ds fs conv args =
        .ran (cfg.inputFiles.map (processJobMp4 fs conv cfg.outputDir cfg.keepOriginal)) 0 ∧
      ∀ (urlOk : Path → Bool) (urls : List Path),
        processUrls urlOk urls = urls.map (processUrl urlOk) ∧
        (processUrls urlOk urls).length = urls.length := by
  intro gs ds fs conv args cfg hne hh1 hh2 hp hinputs
  constructor
  · simp only [mainMp4, hp]
    rw [if_neg (by simp [hne, hh1, hh2]), if_neg hinputs,
      runBatchMp4_eq_map fs conv cfg.outputDir cfg.keepOriginal cfg.inputFiles]
  · intro urlOk urls
    refine ⟨processUrls_eq_map urlOk urls, ?_⟩
    rw [processUrls_eq_map urlOk urls]
    simp

/-- Witness for C5: a one-file batch whose only conversion fails still runs
to completion and exits 0 with a single Failed outcome, and a failing URL
still yields its caught per-URL result. -/
theorem c5_item_errors_never_abort_batch_witness :
    mainMp4 (fun _ => []) (fun _ => []) (fun _ => true) (fun _ => false) ["x.webm".data] =
      .ran (List.map (processJobMp4 (fun _ => true) (fun _ => false) none false)
        ["x.webm".data]) 0 ∧
    ∀ (urlOk : Path → Bool) (urls : List Path),
      processUrls urlOk urls = urls.map (processUrl urlOk) ∧
      (processUrls urlOk urls).length = urls.length :=
  c5_item_errors_never_abort_batch (fun _ => []) (fun _ => [])
    (fun _ => true) (fun _ => false) ["x.webm".data]
    ⟨["x.webm".data], none, false, 22⟩ (by decide) (by decide) (by decide)
    (by rfl) (by decide)

/-! Claim C6. -/

/-- C6: in each converter, an invocation (that is not the help path) whose
argument loop completes with an empty resolved input set is a fatal input
error: the process exits with code 1 before any job runs. -/
theorem c6_empty_resolved_set_is_fatal :
    ∀ (gs ds : Path → List Path) (fs conv : Path → Bool) (args : List Path),
      args ≠ [] → "--help".data ∉ args → "-h".data ∉ args →
      (∀ cfg : Mp4Config, parseMp4 gs ds args defaultMp4Config = .ok cfg →
        cfg.inputFiles = [] → mainMp4 gs ds fs conv args = .exited 1) ∧
      (∀ cfg : WebMConfig, parseWebM gs ds args defaultWebMConfig = .ok cfg →
        cfg.inputFiles = [] → mainWebM gs ds fs conv args = .exited 1) ∧
      (∀ cfg : ImageConfig, parseImage gs ds args defaultImageConfig = .ok cfg →
        cfg.inputFiles = [] → mainImage gs ds fs conv args = .exited 1) := by
  intro gs ds fs conv args hne hh1 hh2
  refine ⟨?_, ?_, ?_⟩ <;> intro cfg hp hempty
  · simp only [mainMp4, hp]
    rw [if_neg (by simp [hne, hh1, hh2]), if_pos hempty]
  · simp only [mainWebM, hp]
    rw [if_neg (by simp [hne, hh1, hh2]), if_pos hempty]
  · simp only [mainImage, hp]
    rw [if_neg (by simp [hne, hh1, hh2]), if_pos hempty]

/-- Witness for C6: an invocation consisting only of the flag `--keep`
resolves no inputs and exits 1 in all three converters. -/
theorem c6_empty_resolved_set_is_fatal_witness :
    mainMp4 (fun _ => []) (fun _ => []) (fun _ => true) (fun _ => true)
      ["--keep".data] = .exited 1 ∧
    mainWebM (fun _ => []) (fun _ => []) (fun _ => true) (fun _ => true)
      ["--keep".data] = .exited 1 ∧
    mainImage (fun _ => []) (fun _ => []) (fun _ => true) (fun _ => true)
      ["--keep".data] = .exited 1 :=
  ⟨(c6_empty_resolved_set_is_fatal (fun _ => []) (fun _ => []) (fun _ => true)
      (fun _ => true) ["--keep".data] (by decide) (by decide) (by decide)).1
      ⟨[], none, true, 22⟩ (by rfl) (by decide),
   (c6_empty_resolved_set_is_fatal (fun _ => []) (fun _ => []) (fun _ => true)
      (fun _ => true) ["--keep".data] (by decide) (by decide) (by decide)).2.1
      ⟨[], none, true, 30⟩ (by rfl) (by decide),
   (c6_empty_resolved_set_is_fatal (fun _ => []) (fun _ => []) (fun _ => true)
      (fun _ => true) ["--keep".data] (by decide) (by decide) (by decide)).2.2
      ⟨[], none, true, 80, none, none⟩ (by rfl) (by decide)⟩

/-! Claim C7. -/

/-- C7 as stated is false for non-numeric values with a numeric prefix:
`--quality 12abc` on the MP4 converter is not rejected — `parseInt` reads
the leading `12`, which is in range, so the batch runs (one job, converted)
and the process exits 0 rather than failing pre-batch. -/
theorem c7_counterexample :
    jsParseInt "12abc".data = some 12 ∧
    mainMp4 (fun _ => []) (fun _ => []) (fun _ => true) (fun _ => true)
      ["f.webm".data, "-q".data, "12abc".data] =
      .ran [⟨.converted "f.mp4".data, true⟩] 0 := by
  decide

/-- C7 amended: the `--quality` value is range-validated per target format —
any invocation whose argument loop completes has an effective quality within
0–51 (MP4), 15–35 (WebM) or 0–100 (image) — and a parse failure (including a
quality value whose leading-integer parse is NaN or out of range) makes the
whole invocation exit with the parser's non-zero code before any job runs.
A value with an in-range integer prefix followed by garbage (e.g. `12abc`)
is accepted as that integer rather than rejected. -/
theorem c7_amended_quality_validation :
    (∀ (gs ds : Path → List Path) (args : List Path) (cfg : Mp4Config),
      parseMp4 gs ds args defaultMp4Config = .ok cfg →
        0 ≤ cfg.quality ∧ cfg.quality ≤ 51) ∧
    (∀ (gs ds : Path → List Path) (args : List Path) (cfg : WebMConfig),
      parseWebM gs ds args defaultWebMConfig = .ok cfg →
        15 ≤ cfg.quality ∧ cfg.quality ≤ 35) ∧
    (∀ (gs ds : Path → List Path) (args : List Path) (cfg : ImageConfig),
      parseImage gs ds args defaultImageConfig = .ok cfg →
        0 ≤ cfg.quality ∧ cfg.quality ≤ 100) ∧
    (∀ (gs ds : Path → List Path) (fs conv : Path → Bool) (args : List Path) (c : Nat),
      args ≠ [] → "--help".data ∉ args → "-h".data ∉ args →
      (parseMp4 gs ds args defaultMp4Config = .error c →
        mainMp4 gs ds fs conv args = .exited c) ∧
      (parseWebM gs ds args defaultWebMConfig = .error c →
        mainWebM gs ds fs conv args = .exited c) ∧
      (parseImage gs ds args defaultImageConfig = .error c →
        mainImage gs ds fs conv args = .exited c)) := by
  refine ⟨?_, ?_, ?_, ?_⟩
  · intro gs ds args cfg hp
    exact parseMp4_quality_range_aux gs ds args.length args le_rfl
      defaultMp4Config cfg hp (by decide) (by decide)
  · intro gs ds args cfg hp
    exact parseWebM_quality_range_aux gs ds args.length args le_rfl
      defaultWebMConfig cfg hp (by decide) (by decide)
  · intro gs ds args cfg hp
    exact parseImage_quality_range_aux gs ds args.length args le_rfl
      defaultImageConfig cfg hp (by decide) (by decide)
  · intro gs ds fs conv args c hne hh1 hh2
    refine ⟨?_, ?_, ?_⟩ <;> intro hp
    · simp only [mainMp4, hp]
      rw [if_neg (by simp [hne, hh1, hh2])]
    · simp only [mainWebM, hp]
      rw [if_neg (by simp [hne, hh1, hh2])]
    · simp only [mainImage, hp]
      rw [if_neg (by simp [hne, hh1, hh2])]

/-- Witness for C7 amended: an accepted quality lands in range for each
converter, and Scenario-D style invocations (`--quality 99` on MP4,
`--quality 99` on WebM, non-numeric `--quality abc` on the image tool) are
fatal with exit code 1 and no jobs. -/
theorem c7_amended_quality_validation_witness :
    (0 ≤ (Mp4Config.mk ["f.webm".data] none false 20).quality ∧
      (Mp4Config.mk ["f.webm".data] none false 20).quality ≤ 51) ∧
    (15 ≤ (WebMConfig.mk ["f.mp4".data] none true 20).quality ∧
      (WebMConfig.mk ["f.mp4".data] none true 20).quality ≤ 35) ∧
    (0 ≤ (ImageConfig.mk ["f.png".data] none true 90 none none).quality ∧
      (ImageConfig.mk ["f.png".data] none true 90 none none).quality ≤ 100) ∧
    mainMp4 (fun _ => []) (fun _ => []) (fun _ => true) (fun _ => true)
      ["f.webm".data, "--quality".data, "99".data] = .exited 1 ∧
    mainWebM (fun _ => []) (fun _ => []) (fun _ => true) (fun _ => true)
      ["f.mp4".data, "--quality".data, "99".data] = .exited 1 ∧
    mainImage (fun _ => []) (fun _ => []) (fun _ => true) (fun _ => true)
      ["f.png".data, "--quality".data, "abc".data] = .exited 1 :=
  ⟨c7_amended_quality_validation.1 (fun _ => []) (fun _ => [])
      ["f.webm".data, "-q".data, "20".data] _ (by rfl),
   c7_amended_quality_validation.2.1 (fun _ => []) (fun _ => [])
      ["f.mp4".data, "-q".data, "20".data] _ (by rfl),
   c7_amended_quality_validation.2.2.1 (fun _ => []) (fun _ => [])
      ["f.png".data, "-q".data, "90".data] _ (by rfl),
   (c7_amended_quality_validation.2.2.2 (fun _ => []) (fun _ => [])
      (fun _ => true) (fun _ => true) ["f.webm".data, "--quality".data, "99".data] 1
      (by decide) (by decide) (by decide)).1 (by rfl),
   (c7_amended_quality_validation.2.2.2 (fun _ => []) (fun _ => [])
      (fun _ => true) (fun _ => true) ["f.mp4".data, "--quality".data, "99".data] 1
      (by decide) (by decide) (by decide)).2.1 (by rfl),
   (c7_amended_quality_validation.2.2.2 (fun _ => []) (fun _ => [])
      (fun _ => true) (fun _ => true) ["f.png".data, "--quality".data, "abc".data] 1
      (by decide) (by decide) (by decide)).2.2 (by rfl)⟩

/-! Claim C8. -/

lemma scrollLoop_count_bounds (d : Nat) :
    ∀ (k : Nat) (st : PageState) (e : Nat), d - e ≤ k → e < d →
      e + SCROLL_INTERVAL_MS * ((scrollLoop d st e).2 - 1) < d ∧
      d ≤ e + SCROLL_INTERVAL_MS * (scrollLoop d st e).2 := by
  intro k
  induction k with
  | zero =>
    intro st e hk he
    omega
  | succ k ih =>
    intro st e hk he
    rw [scrollLoop, dif_pos he]
    by_cases h2 : e + SCROLL_INTERVAL_MS < d
    · have hih := ih (scrollStep st) (e + SCROLL_INTERVAL_MS)
        (by simp only [SCROLL_INTERVAL_MS] at hk ⊢; omega) h2
      simp only [SCROLL_INTERVAL_MS] at hih h2 ⊢
      omega
    · have hz : scrollLoop d (scrollStep st) (e + SCROLL_INTERVAL_MS) = (scrollStep st, 0) := by
        rw [scrollLoop, dif_neg h2]
      simp only [hz]
      simp only [SCROLL_INTERVAL_MS] at h2 ⊢
      omega

/-- C8: the scroll loop terminates for every positive duration.  Each
iteration checks whether the scroll position is short of the scrollable
extent, advances by the fixed pixel amount only if so, and always accounts
the full fixed interval, so (in the idealised clock where an iteration
costs exactly its unconditional sleep) the loop exits exactly when the
elapsed time reaches the configured duration: the interval times the
iteration count first reaches the duration at the final iteration.  With
the default 15000 ms duration and 12 ms interval this is 1250 iterations. -/
theorem c8_scroll_loop_exits_on_schedule :
    ∀ (d : Nat) (st : PageState), 0 < d →
      (∀ (s : PageState) (e : Nat), e < d →
        scrollLoop d s e =
          ((scrollLoop d (scrollStep s) (e + SCROLL_INTERVAL_MS)).1,
            (scrollLoop d (scrollStep s) (e + SCROLL_INTERVAL_MS)).2 + 1)) ∧
      (∀ s : PageState, (scrollStep s).scrollTop =
        if s.scrollTop + s.clientHeight < s.scrollHeight
        then s.scrollTop + SCROLL_AMOUNT else s.scrollTop) ∧
      SCROLL_INTERVAL_MS * ((scrollLoop d st 0).2 - 1) < d ∧
      d ≤ SCROLL_INTERVAL_MS * (scrollLoop d st 0).2 ∧
      (scrollLoop VIDEO_DURATION_MS st 0).2 = 1250 := by
  intro d st hd
  have hb := scrollLoop_count_bounds d d st 0 (by omega) hd
  refine ⟨?_, ?_, ?_, ?_, ?_⟩
  · intro s e he
    rw [scrollLoop, dif_pos he]
  · intro s
    simp only [scrollStep]
    split <;> rfl
  · simpa using hb.1
  · simpa using hb.2
  · have hb2 := scrollLoop_count_bounds VIDEO_DURATION_MS VIDEO_DURATION_MS st 0
      (by omega) (by decide)
    have hv : VIDEO_DURATION_MS = 15000 := rfl
    have hs : SCROLL_INTERVAL_MS = 12 := rfl
    rw [hv, hs] at hb2
    rw [hv]
    omega

/-- Witness for C8 at a concrete positive duration (24 ms) and page state. -/
theorem c8_scroll_loop_exits_on_schedule_witness :
    (∀ (s : PageState) (e : Nat), e < 24 →
      scrollLoop 24 s e =
        ((scrollLoop 24 (scrollStep s) (e + SCROLL_INTERVAL_MS)).1,
          (scrollLoop 24 (scrollStep s) (e + SCROLL_INTERVAL_MS)).2 + 1)) ∧
    (∀ s : PageState, (scrollStep s).scrollTop =
      if s.scrollTop + s.clientHeight < s.scrollHeight
      then s.scrollTop + SCROLL_AMOUNT else s.scrollTop) ∧
    SCROLL_INTERVAL_MS * ((scrollLoop 24 ⟨0, 10, 5⟩ 0).2 - 1) < 24 ∧
    24 ≤ SCROLL_INTERVAL_MS * (scrollLoop 24 ⟨0, 10, 5⟩ 0).2 ∧
    (scrollLoop VIDEO_DURATION_MS ⟨0, 10, 5⟩ 0).2 = 1250 :=
  c8_scroll_loop_exits_on_schedule 24 ⟨0, 10, 5⟩ (by decide)

/-! Claim C9. -/

lemma suffix_joinPath (dir name : Path) : name <:+ joinPath dir name := by
  unfold joinPath
  split_ifs
  · exact List.suffix_refl name
  · exact ⟨dir, rfl⟩
  · exact ⟨dir ++ ['/'], by simp⟩

/-- C9: the `recordVideo` precondition that its filepath ends with ".mp4"
holds at its only call site — `takeScreenshots` joins the output directory
with a filename literally suffixed ".mp4" — so the validation throw is
unreachable in the tool's flow, for every output directory, hostname and
timestamp. -/
theorem c9_recordVideo_guard_unreachable :
    ∀ (outputDir hostname timestamp : Path),
      recordVideoCheck (joinPath outputDir (videoFilename hostname timestamp)) = .ok () := by
  intro od host ts
  unfold recordVideoCheck
  rw [if_pos]
  have h1 : ".mp4".data <:+ videoFilename host ts := by
    refine ⟨host.map (fun c => if c = '.' then '_' else c) ++ '_' :: ts, ?_⟩
    simp [videoFilename]
  exact List.isSuffixOf_iff_suffix.mpr
    (h1.trans (suffix_joinPath od (videoFilename host ts)))

/-! Claim C10. -/

/-- C10: in every converter's argument loop, a token that starts with a dash
and matches no recognized flag is silently ignored — the parse continues on
the remaining tokens with an unchanged configuration, so the token is never
added to the input set, consumes no following value, and raises no error. -/
theorem c10_unrecognized_dash_token_ignored :
    ∀ (gs ds : Path → List Path) (arg : Path) (rest : List Path),
      arg.head? = some '-' →
      (∀ cfg : Mp4Config,
        arg ∉ ["--output".data, "-o".data, "--pattern".data, "-p".data, "--dir".data,
          "-d".data, "--keep".data, "-k".data, "--quality".data, "-q".data] →
        parseMp4 gs ds (arg :: rest) cfg = parseMp4 gs ds rest cfg) ∧
      (∀ cfg : WebMConfig,
        arg ∉ ["--output".data, "-o".data, "--pattern".data, "-p".data, "--dir".data,
          "-d".data, "--keep".data, "-k".data, "--remove".data, "-r".data,
          "--quality".data, "-q".data] →
        parseWebM gs ds (arg :: rest) cfg = parseWebM gs ds rest cfg) ∧
      (∀ cfg : ImageConfig,
        arg ∉ ["--output".data, "-o".data, "--pattern".data, "-p".data, "--dir".data,
          "-d".data, "--keep".data, "-k".data, "--remove".data, "-r".data,
          "--quality".data, "-q".data, "--width".data, "-w".data, "--height".data] →
        parseImage gs ds (arg :: rest) cfg = parseImage gs ds rest cfg) := by
  intro gs ds arg rest harg
  have hpush : ¬ (arg ≠ [] ∧ arg.head? ≠ some '-') := fun h => h.2 harg
  refine ⟨?_, ?_, ?_⟩ <;> intro cfg hmem <;>
    simp only [List.mem_cons, List.mem_nil_iff, or_false, not_or] at hmem
  · obtain ⟨h1, h2, h3, h4, h5, h6, h7, h8, h9, h10⟩ := hmem
    cases rest with
    | nil =>
      conv_lhs => rw [parseMp4]
      rw [if_neg (not_or_intro h1 h2), if_neg (not_or_intro h3 h4),
        if_neg (not_or_intro h5 h6), if_neg (not_or_intro h7 h8),
        if_neg (not_or_intro h9 h10), if_neg hpush]
    | cons v rest' =>
      rw [parseMp4]
      rw [if_neg (not_or_intro h1 h2), if_neg (not_or_intro h3 h4),
        if_neg (not_or_intro h5 h6), if_neg (not_or_intro h7 h8),
        if_neg (not_or_intro h9 h10), if_neg hpush]
  · obtain ⟨h1, h2, h3, h4, h5, h6, h7, h8, h9, h10, h11, h12⟩ := hmem
    cases rest with
    | nil =>
      conv_lhs => rw [parseWebM]
      rw [if_neg (not_or_intro h1 h2), if_neg (not_or_intro h3 h4),
        if_neg (not_or_intro h5 h6), if_neg (not_or_intro h7 h8),
        if_neg (not_or_intro h9 h10), if_neg (not_or_intro h11 h12), if_neg hpush]
    | cons v rest' =>
      rw [parseWebM]
      rw [if_neg (not_or_intro h1 h2), if_neg (not_or_intro h3 h4),
        if_neg (not_or_intro h5 h6), if_neg (not_or_intro h7 h8),
        if_neg (not_or_intro h9 h10), if_neg (not_or_intro h11 h12), if_neg hpush]
  · obtain ⟨h1, h2, h3, h4, h5, h6, h7, h8, h9, h10, h11, h12, h13, h14, h15⟩ := hmem
    cases rest with
    | nil =>
      conv_lhs => rw [parseImage]
      rw [if_neg (not_or_intro h1 h2), if_neg (not_or_intro h3 h4),
        if_neg (not_or_intro h5 h6), if_neg (not_or_intro h7 h8),
        if_neg (not_or_intro h9 h10), if_neg (not_or_intro h11 h12),
        if_neg (not_or_intro h13 h14), if_neg h15, if_neg hpush]
    | cons v rest' =>
      rw [parseImage]
      rw [if_neg (not_or_intro h1 h2), if_neg (not_or_intro h3 h4),
        if_neg (not_or_intro h5 h6), if_neg (not_or_intro h7 h8),
        if_neg (not_or_intro h9 h10), if_neg (not_or_intro h11 h12),
        if_neg (not_or_intro h13 h14), if_neg h15, if_neg hpush]

/-- Witness for C10: the token `--remove` (unrecognized by the MP4
converter) and a misspelled `-x` are dropped without consuming anything,
leaving the parse of the remaining arguments unchanged. -/
theorem c10_unrecognized_dash_token_ignored_witness :
    parseMp4 (fun _ => []) (fun _ => []) ("--remove".data :: ["f.webm".data])
      defaultMp4Config =
      parseMp4 (fun _ => []) (fun _ => []) ["f.webm".data] defaultMp4Config ∧
    parseWebM (fun _ => []) (fun _ => []) ("-x".data :: ["f.mp4".data])
      defaultWebMConfig =
      parseWebM (fun _ => []) (fun _ => []) ["f.mp4".data] defaultWebMConfig ∧
    parseImage (fun _ => []) (fun _ => []) ("-x".data :: ["f.png".data])
      defaultImageConfig =
      parseImage (fun _ => []) (fun _ => []) ["f.png".data] defaultImageConfig :=
  ⟨(c10_unrecognized_dash_token_ignored (fun _ => []) (fun _ => [])
      "--remove".data ["f.webm".data] (by decide)).1 defaultMp4Config (by decide),
   (c10_unrecognized_dash_token_ignored (fun _ => []) (fun _ => [])
      "-x".data ["f.mp4".data] (by decide)).2.1 defaultWebMConfig (by decide),
   (c10_unrecognized_dash_token_ignored (fun _ => []) (fun _ => [])
      "-x".data ["f.png".data] (by decide)).2.2 defaultImageConfig (by decide)⟩

end WebScraping
